import Mathlib

/-
Verification development for the BSWLauncher patch client (patcher.go).

The Go source is shallowly embedded: bytes are naturals (values below 256 on
real wire data, though most lemmas need no bound), Go strings are byte lists,
the local filesystem is a map from paths to an optional local-file record, and
the network is an oracle function.  Machine integers are modelled as Nat or Int
with explicit reductions modulo powers of two where the code truncates.
-/

namespace BSW

/-- Constant from patcher.go line 26: downloads start in non-forced mode. -/
def DefaultForceDownload : Bool := false

/-- Rolling XOR key of fetchVersionFile (patcher.go line 85): the byte at
position i is XORed with byte(i % 0xFF + 0x69); the byte cast reduces mod 256. -/
def xorKey (i : Nat) : Nat := (i % 255 + 105) % 256

/-- Helper for the de-obfuscation loop, carrying the running index. -/
def deobfAux (k : Nat) : List Nat → List Nat
  | [] => []
  | b :: rest => (b ^^^ xorKey k) :: deobfAux (k + 1) rest

/-- De-obfuscation loop of fetchVersionFile (patcher.go lines 84-86):
every byte at position i is XORed with the rolling key. -/
def deobfuscate (data : List Nat) : List Nat := deobfAux 0 data

/-- Little-endian 4-byte encoding of a 32-bit value. -/
def le32 (n : Nat) : List Nat :=
  [n % 256, n / 256 % 256, n / 65536 % 256, n / 16777216 % 256]

/-- Little-endian 8-byte encoding of a 64-bit value. -/
def le64 (n : Nat) : List Nat :=
  [n % 256, n / 256 % 256, n / 65536 % 256, n / 16777216 % 256,
   n / 4294967296 % 256, n / 1099511627776 % 256,
   n / 281474976710656 % 256, n / 72057594037927936 % 256]

/-- Little-endian value of a byte list (inverse of le32 and le64 on their
ranges). -/
def leToNat : List Nat → Nat
  | [] => 0
  | b :: rest => b + 256 * leToNat rest

/-- Two-complement image of an int64 as an unsigned 64-bit value. -/
def int64ToNat (i : Int) : Nat := (i % (18446744073709551616 : Int)).toNat

/-- Signed reading of an unsigned 64-bit value (how binary.Read fills an
int64 destination). -/
def int64OfNat (n : Nat) : Int :=
  if n < 9223372036854775808 then (n : Int) else (n : Int) - 18446744073709551616

/-- Semantics of binary.Read n bytes from a bytes.Buffer: io.ReadFull either
returns exactly n bytes and consumes them, or fails, consuming whatever was
available and leaving the destination untouched (hence the none). -/
def binRead (n : Nat) (buf : List Nat) : Option (List Nat) × List Nat :=
  if n ≤ buf.length then (some (buf.take n), buf.drop n) else (none, [])

/-- Manifest entry, struct File of patcher.go lines 33-39.  Path and Hash are
raw byte strings. -/
structure File where
  PathLen : Nat
  Path : List Nat
  HashLen : Nat
  Hash : List Nat
  LastModified : Int
deriving DecidableEq, Repr

/-- The all-zero entry a failed binary.Read leaves behind (Go zero values). -/
def zeroFile : File := ⟨0, [], 0, [], 0⟩

/-- Manifest, struct VersionFile of patcher.go lines 41-45. -/
structure VersionFile where
  Padding : List Nat
  NumberOfFiles : Nat
  Files : List File
deriving DecidableEq, Repr

/-- One iteration of the entry-decoding loop (patcher.go lines 96-112).
Every binary.Read error is discarded in the source, so a failed read leaves
the zero value (for the string buffers, the zero-filled make result). -/
def decodeFile (buf : List Nat) : File × List Nat :=
  match binRead 4 buf with
  | (r1, b1) =>
    let pathLen := (r1.map leToNat).getD 0
    match binRead pathLen b1 with
    | (r2, b2) =>
      let path := r2.getD (List.replicate pathLen 0)
      match binRead 4 b2 with
      | (r3, b3) =>
        let hashLen := (r3.map leToNat).getD 0
        match binRead hashLen b3 with
        | (r4, b4) =>
          let hash := r4.getD (List.replicate hashLen 0)
          match binRead 8 b4 with
          | (r5, b5) =>
            (⟨pathLen, path, hashLen, hash,
              (r5.map fun bs => int64OfNat (leToNat bs)).getD 0⟩, b5)

/-- The entry loop of fetchVersionFile: decode the declared number of
entries in order. -/
def decodeFiles : Nat → List Nat → List File × List Nat
  | 0, buf => ([], buf)
  | n + 1, buf =>
    match decodeFile buf with
    | (f, buf1) =>
      match decodeFiles n buf1 with
      | (fs, buf2) => (f :: fs, buf2)

/-- Body of fetchVersionFile after de-obfuscation (patcher.go lines 87-114):
16-byte padding, little-endian uint32 count, then the entries.  All read
errors are discarded, so decoding is total. -/
def decodeVersionFile (data : List Nat) : VersionFile :=
  match binRead 16 data with
  | (r0, b0) =>
    let padding := r0.getD (List.replicate 16 0)
    match binRead 4 b0 with
    | (r1, b1) =>
      let n := (r1.map leToNat).getD 0
      match decodeFiles n b1 with
      | (files, _) => ⟨padding, n, files⟩

/-- fetchVersionFile (patcher.go lines 78-115) with the network abstracted:
the only error it can return is the error of getFile; a successfully fetched
byte stream is always decoded without error. -/
def fetchVersionFile (fetched : Except Unit (List Nat)) : Except Unit VersionFile :=
  match fetched with
  | .error e => .error e
  | .ok data => .ok (decodeVersionFile (deobfuscate data))

/-- Wire construction inverse of the decoder, for one entry. -/
def encodeFile (f : File) : List Nat :=
  le32 f.PathLen ++ f.Path ++ le32 f.HashLen ++ f.Hash ++
    le64 (int64ToNat f.LastModified)

/-- Wire construction inverse of the decoder, for a whole manifest. -/
def encodeVersionFile (vf : VersionFile) : List Nat :=
  vf.Padding ++ le32 vf.NumberOfFiles ++ (vf.Files.map encodeFile).flatten

/-- Well-formed entry: the recorded lengths match and every numeric field
fits its wire width. -/
def WFFile (f : File) : Prop :=
  f.PathLen = f.Path.length ∧ f.PathLen < 4294967296 ∧
  f.HashLen = f.Hash.length ∧ f.HashLen < 4294967296 ∧
  -(9223372036854775808 : Int) ≤ f.LastModified ∧
  f.LastModified < 9223372036854775808

/-- Well-formed manifest: 16-byte padding, self-consistent count, and
well-formed entries. -/
def WFVersionFile (vf : VersionFile) : Prop :=
  vf.Padding.length = 16 ∧ vf.NumberOfFiles = vf.Files.length ∧
  vf.NumberOfFiles < 4294967296 ∧ ∀ f ∈ vf.Files, WFFile f

theorem deobfAux_involutive (k : Nat) (l : List Nat) :
    deobfAux k (deobfAux k l) = l := by
  induction l generalizing k with
  | nil => rfl
  | cons b rest ih =>
    simp [deobfAux, Nat.xor_assoc, Nat.xor_self, ih]

theorem deobfuscate_involutive (data : List Nat) :
    deobfuscate (deobfuscate data) = data :=
  deobfAux_involutive 0 data

theorem take_len_append {α : Type} (xs ys : List α) :
    (xs ++ ys).take xs.length = xs := by
  induction xs with
  | nil => rfl
  | cons a l ih => simp [ih]

theorem drop_len_append {α : Type} (xs ys : List α) :
    (xs ++ ys).drop xs.length = ys := by
  induction xs with
  | nil => rfl
  | cons a l ih => simp [ih]

theorem binRead_exact (xs ys : List Nat) (n : Nat) (h : xs.length = n) :
    binRead n (xs ++ ys) = (some xs, ys) := by
  subst h
  simp [binRead, take_len_append, drop_len_append]

theorem binRead_exact_all (xs : List Nat) (n : Nat) (h : xs.length = n) :
    binRead n xs = (some xs, []) := by
  subst h
  simp [binRead]

theorem le32_length (n : Nat) : (le32 n).length = 4 := by simp [le32]

theorem le64_length (n : Nat) : (le64 n).length = 8 := by simp [le64]

theorem leToNat_le32 (n : Nat) (h : n < 4294967296) : leToNat (le32 n) = n := by
  simp [le32, leToNat]
  omega

theorem leToNat_le64 (n : Nat) (h : n < 18446744073709551616) :
    leToNat (le64 n) = n := by
  simp [le64, leToNat]
  omega

theorem int64ToNat_lt (i : Int) : int64ToNat i < 18446744073709551616 := by
  unfold int64ToNat
  omega

theorem int64_roundtrip (i : Int)
    (hlo : -(9223372036854775808 : Int) ≤ i)
    (hhi : i < 9223372036854775808) :
    int64OfNat (int64ToNat i) = i := by
  unfold int64ToNat int64OfNat
  omega

theorem decodeFile_encode (f : File) (rest : List Nat) (h : WFFile f) :
    decodeFile (encodeFile f ++ rest) = (f, rest) := by
  obtain ⟨PL, P, HL, H, LM⟩ := f
  obtain ⟨h1, h2, h3, h4, h5, h6⟩ := h
  simp only at h1 h2 h3 h4 h5 h6
  subst h1 h3
  simp only [encodeFile, List.append_assoc, decodeFile]
  rw [binRead_exact _ _ 4 (le32_length _)]
  simp only [Option.map_some', Option.getD_some, leToNat_le32 _ h2]
  rw [binRead_exact P _ P.length rfl]
  simp only [Option.getD_some]
  rw [binRead_exact _ _ 4 (le32_length _)]
  simp only [Option.map_some', Option.getD_some, leToNat_le32 _ h4]
  rw [binRead_exact H _ H.length rfl]
  simp only [Option.getD_some]
  rw [binRead_exact _ _ 8 (le64_length _)]
  simp only [Option.map_some', Option.getD_some,
    leToNat_le64 _ (int64ToNat_lt LM), int64_roundtrip LM h5 h6]

theorem decodeFiles_encode (fs : List File) (rest : List Nat)
    (h : ∀ f ∈ fs, WFFile f) :
    decodeFiles fs.length ((fs.map encodeFile).flatten ++ rest) = (fs, rest) := by
  induction fs generalizing rest with
  | nil => simp [decodeFiles]
  | cons f tl ih =>
    simp only [List.map_cons, List.flatten_cons, List.length_cons,
      List.append_assoc, decodeFiles]
    rw [decodeFile_encode f _ (h f (List.mem_cons_self f tl))]
    rw [ih _ fun g hg => h g (List.mem_cons_of_mem f hg)]

theorem decodeFiles_encode_all (fs : List File) (h : ∀ f ∈ fs, WFFile f) :
    decodeFiles fs.length (fs.map encodeFile).flatten = (fs, []) := by
  have h2 := decodeFiles_encode fs [] h
  simpa using h2

theorem decodeVersionFile_encode (vf : VersionFile) (h : WFVersionFile vf) :
    decodeVersionFile (encodeVersionFile vf) = vf := by
  obtain ⟨hp, hc, hlt, hf⟩ := h
  rw [hc] at hlt
  simp only [encodeVersionFile, List.append_assoc, decodeVersionFile]
  rw [binRead_exact _ _ 16 hp]
  simp only [Option.getD_some]
  rw [binRead_exact _ _ 4 (le32_length _)]
  simp only [Option.map_some', Option.getD_some, hc, leToNat_le32 _ hlt]
  rw [decodeFiles_encode_all vf.Files hf, ← hc]

theorem decodeFile_nil : decodeFile [] = (zeroFile, []) := by
  simp [decodeFile, binRead, zeroFile]

theorem decodeFiles_nil (n : Nat) :
    decodeFiles n [] = (List.replicate n zeroFile, []) := by
  induction n with
  | zero => rfl
  | succ k ih => simp [decodeFiles, decodeFile_nil, ih, List.replicate_succ]

/-- C1 counterexample: a wire stream whose de-obfuscated content declares one
entry but encodes none (the buffer ends right after the count).  The claim
says fetchVersionFile must return an error on such input; in fact it returns
a successfully decoded manifest that keeps the declared count and holds one
zero-filled entry, because every binary.Read error is discarded. -/
theorem truncated_manifest_no_error_cex :
    deobfuscate (deobfuscate (List.replicate 16 0 ++ [1, 0, 0, 0])) =
      List.replicate 16 0 ++ [1, 0, 0, 0] ∧
    fetchVersionFile (.ok (deobfuscate (List.replicate 16 0 ++ [1, 0, 0, 0]))) =
      .ok ⟨List.replicate 16 0, 1, [zeroFile]⟩ := by
  exact ⟨by rfl, by rfl⟩

/-- C1 amended: when the de-obfuscated buffer ends immediately after the
declared entry count, fetchVersionFile does not fail; it returns a manifest
with the declared count and that many zero-valued entries (empty path, empty
hash, zero timestamp), since fetchVersionFile discards all decode errors. -/
theorem truncated_manifest_zero_filled (header : List Nat) (n : Nat)
    (h16 : header.length = 16) (hn : n < 4294967296) :
    fetchVersionFile (.ok (deobfuscate (header ++ le32 n))) =
      .ok ⟨header, n, List.replicate n zeroFile⟩ := by
  simp only [fetchVersionFile]
  rw [deobfuscate_involutive]
  simp only [decodeVersionFile]
  rw [binRead_exact _ _ 16 h16]
  simp only [Option.getD_some]
  rw [binRead_exact_all (le32 n) 4 (le32_length _)]
  simp only [Option.map_some', Option.getD_some, leToNat_le32 _ hn]
  rw [decodeFiles_nil n]

theorem truncated_manifest_zero_filled_witness :
    (List.replicate 16 (7 : Nat)).length = 16 ∧ 3 < 4294967296 ∧
    fetchVersionFile (.ok (deobfuscate (List.replicate 16 7 ++ le32 3))) =
      .ok ⟨List.replicate 16 7, 3, List.replicate 3 zeroFile⟩ :=
  ⟨by decide, by decide,
    truncated_manifest_zero_filled (List.replicate 16 7) 3 (by decide) (by decide)⟩

/-- C5: the XOR de-obfuscation with rolling key ((i mod 255) + 0x69) mod 256
is an involution, and decoding a byte stream built by the inverse of the
decoding procedure recovers the declared count and the source entries. -/
theorem deobfuscate_involution_decode_roundtrip (data : List Nat)
    (vf : VersionFile) (h : WFVersionFile vf) :
    deobfuscate (deobfuscate data) = data ∧
    (decodeVersionFile (encodeVersionFile vf)).NumberOfFiles =
      vf.NumberOfFiles ∧
    (decodeVersionFile (encodeVersionFile vf)).Files = vf.Files := by
  refine ⟨deobfuscate_involutive data, ?_, ?_⟩ <;>
    rw [decodeVersionFile_encode vf h]

theorem deobfuscate_involution_decode_roundtrip_witness :
    WFVersionFile ⟨List.replicate 16 0, 1, [⟨1, [7], 2, [3, 4], -5⟩]⟩ ∧
    (deobfuscate (deobfuscate [10, 20, 250]) = [10, 20, 250] ∧
     (decodeVersionFile (encodeVersionFile
        ⟨List.replicate 16 0, 1, [⟨1, [7], 2, [3, 4], -5⟩]⟩)).NumberOfFiles = 1 ∧
     (decodeVersionFile (encodeVersionFile
        ⟨List.replicate 16 0, 1, [⟨1, [7], 2, [3, 4], -5⟩]⟩)).Files =
       [⟨1, [7], 2, [3, 4], -5⟩]) := by
  have hwf : WFVersionFile ⟨List.replicate 16 0, 1, [⟨1, [7], 2, [3, 4], -5⟩]⟩ := by
    refine ⟨by decide, by decide, by decide, ?_⟩
    intro f hf
    simp only [List.mem_singleton] at hf
    subst hf
    exact ⟨rfl, by decide, rfl, by decide, by decide, by decide⟩
  exact ⟨hwf, deobfuscate_involution_decode_roundtrip [10, 20, 250] _ hwf⟩

/-- Local file as observed by verifyFiles: result of a successful os.Open,
with the subsequent Stat outcome, the permission mode word, whether the
io.Copy hashing read succeeds, and the content that gets hashed. -/
structure LocalFile where
  statOk : Bool
  mode : Nat
  readOk : Bool
  content : List Nat
deriving DecidableEq, Repr

/-- The local filesystem keyed by manifest path: none means os.Open failed
(non-existence or any other open error, which patcher.go line 127 treats
alike). -/
abbrev FS : Type := List Nat → Option LocalFile

/-- Spec classification of one entry, following the branch structure of
verifyFiles (patcher.go lines 120-155).  The digest argument abstracts the
hex-encoded blake2b-256 content digest. -/
inductive FState where
  | missing
  | prot
  | readFailed
  | stale
  | upToDate
deriving DecidableEq, Repr

/-- Branches of the verifyFiles loop body for one entry. -/
def classify (digest : List Nat → List Nat) (fs : FS) (f : File) : FState :=
  match fs f.Path with
  | none => .missing
  | some lf =>
    if lf.statOk && (lf.mode == 292) then .prot
    else if !lf.readOk then .readFailed
    else if digest lf.content == f.Hash then .upToDate
    else .stale

/-- The loop-body condition under which verifyFiles appends the entry to
toDownload. -/
def needsDownload (digest : List Nat → List Nat) (fs : FS) (f : File) : Bool :=
  match fs f.Path with
  | none => true
  | some lf =>
    if lf.statOk && (lf.mode == 292) then false
    else if !lf.readOk then true
    else !(digest lf.content == f.Hash)

/-- verifyFiles (patcher.go lines 117-158): walk the entries in order and
collect those that need downloading.  Mode 292 is the octal 0444 protected
mode of line 133. -/
def verifyFiles (digest : List Nat → List Nat) (fs : FS) : List File → List File
  | [] => []
  | f :: rest =>
    match fs f.Path with
    | none => f :: verifyFiles digest fs rest
    | some lf =>
      if lf.statOk && (lf.mode == 292) then verifyFiles digest fs rest
      else if !lf.readOk then f :: verifyFiles digest fs rest
      else if digest lf.content == f.Hash then verifyFiles digest fs rest
      else f :: verifyFiles digest fs rest

/-- Paths whose local file is actually read for hashing (io.Copy at line
137): every opened entry that is not skipped as protected. -/
def verifyHashed (fs : FS) (files : List File) : List (List Nat) :=
  (files.filter fun f =>
    match fs f.Path with
    | none => false
    | some lf => !(lf.statOk && (lf.mode == 292))).map File.Path

/-- Modification-time writes performed by verifyFiles (os.Chtimes at line
152): one per entry whose hash matched. -/
def verifyWrites (digest : List Nat → List Nat) (fs : FS) (files : List File) :
    List (List Nat × Int) :=
  (files.filter fun f => classify digest fs f == .upToDate).map
    fun f => (f.Path, f.LastModified)

/-- Every path written during a run: modification-time writes from the
verifier plus the content writes of the queued downloads. -/
def runWriteTargets (digest : List Nat → List Nat) (fs : FS)
    (files : List File) : List (List Nat) :=
  (verifyWrites digest fs files).map Prod.fst ++
    (verifyFiles digest fs files).map File.Path

theorem verifyFiles_eq_filter (digest : List Nat → List Nat) (fs : FS)
    (files : List File) :
    verifyFiles digest fs files = files.filter (needsDownload digest fs) := by
  induction files with
  | nil => rfl
  | cons f rest ih =>
    cases hfs : fs f.Path with
    | none => simp [verifyFiles, needsDownload, List.filter_cons, hfs, ih]
    | some lf =>
      by_cases h1 : lf.statOk && (lf.mode == 292)
      · simp [verifyFiles, needsDownload, List.filter_cons, hfs, h1, ih]
      · by_cases h2 : lf.readOk
        · by_cases h3 : digest lf.content == f.Hash
          · simp [verifyFiles, needsDownload, List.filter_cons, hfs, h1, h2,
              h3, ih]
          · simp [verifyFiles, needsDownload, List.filter_cons, hfs, h1, h2,
              h3, ih]
        · simp [verifyFiles, needsDownload, List.filter_cons, hfs, h1, h2, ih]

theorem mem_verifyFiles (digest : List Nat → List Nat) (fs : FS)
    (files : List File) (f : File) :
    f ∈ verifyFiles digest fs files ↔
      f ∈ files ∧ needsDownload digest fs f = true := by
  rw [verifyFiles_eq_filter]
  exact List.mem_filter

theorem needsDownload_eq_false_iff (digest : List Nat → List Nat) (fs : FS)
    (f : File) :
    needsDownload digest fs f = false ↔
      classify digest fs f = .prot ∨ classify digest fs f = .upToDate := by
  cases hfs : fs f.Path with
  | none => simp [needsDownload, classify, hfs]
  | some lf =>
    by_cases h1 : lf.statOk && (lf.mode == 292)
    · simp [needsDownload, classify, hfs, h1]
    · by_cases h2 : lf.readOk
      · by_cases h3 : digest lf.content == f.Hash
        · simp [needsDownload, classify, hfs, h1, h2, h3]
        · simp [needsDownload, classify, hfs, h1, h2, h3]
      · simp [needsDownload, classify, hfs, h1, h2]

theorem classify_missing (digest : List Nat → List Nat) (fs : FS) (f : File)
    (h : fs f.Path = none) : classify digest fs f = .missing := by
  simp [classify, h]

theorem needsDownload_congr (digest : List Nat → List Nat) (fs1 fs2 : FS)
    (f : File) (h : fs1 f.Path = fs2 f.Path) :
    needsDownload digest fs1 f = needsDownload digest fs2 f := by
  unfold needsDownload
  rw [h]

theorem classify_congr (digest : List Nat → List Nat) (fs1 fs2 : FS)
    (f : File) (h : fs1 f.Path = fs2 f.Path) :
    classify digest fs1 f = classify digest fs2 f := by
  unfold classify
  rw [h]

theorem filter_nil_of_false {α : Type} (p : α → Bool) (l : List α)
    (h : ∀ a ∈ l, p a = false) : l.filter p = [] := by
  induction l with
  | nil => rfl
  | cons a t ih =>
    simp [List.filter_cons, h a (List.mem_cons_self a t),
      ih fun b hb => h b (List.mem_cons_of_mem a hb)]

/-- C3: an entry classified UpToDate has a local content digest equal (as an
exact byte-string comparison) to the manifest hash and is not queued; a
readable, non-protected entry whose digest differs is classified Stale and
queued for fetch. -/
theorem verify_uptodate_digest_eq (digest : List Nat → List Nat) (fs : FS)
    (files : List File) (f : File) (lf : LocalFile)
    (hmem : f ∈ files) (hfs : fs f.Path = some lf) :
    (classify digest fs f = .upToDate →
      digest lf.content = f.Hash ∧ f ∉ verifyFiles digest fs files) ∧
    (lf.readOk = true → ¬(lf.statOk = true ∧ lf.mode = 292) →
      digest lf.content ≠ f.Hash →
      classify digest fs f = .stale ∧ f ∈ verifyFiles digest fs files) := by
  by_cases h1 : lf.statOk && (lf.mode == 292)
  · constructor
    · intro hup
      simp [classify, hfs, h1] at hup
    · intro _ h2 _
      exact absurd ⟨by simpa using (Bool.and_elim_left h1),
        by simpa using (Bool.and_elim_right h1)⟩ h2
  · by_cases h2 : lf.readOk
    · by_cases h3 : digest lf.content == f.Hash
      · constructor
        · intro _
          constructor
          · simpa using h3
          · rw [mem_verifyFiles]
            rintro ⟨_, hnd⟩
            simp [needsDownload, hfs, h1, h2, h3] at hnd
        · intro _ _ hne
          exact absurd (by simpa using h3) hne
      · constructor
        · intro hup
          simp [classify, hfs, h1, h2, h3] at hup
        · intro _ _ _
          refine ⟨by simp [classify, hfs, h1, h2, h3], ?_⟩
          rw [mem_verifyFiles]
          exact ⟨hmem, by simp [needsDownload, hfs, h1, h2, h3]⟩
    · constructor
      · intro hup
        simp [classify, hfs, h1, h2] at hup
      · intro hro _ _
        exact absurd hro (by simpa using h2)

theorem verify_uptodate_digest_eq_witness :
    ((⟨1, [1], 1, [9], 5⟩ : File) ∈ [(⟨1, [1], 1, [9], 5⟩ : File)] ∧
     (fun p => if p = [1] then some (⟨true, 420, true, [9]⟩ : LocalFile)
               else none : FS) [1] = some ⟨true, 420, true, [9]⟩) ∧
    ((classify (fun c => c)
        (fun p => if p = [1] then some ⟨true, 420, true, [9]⟩ else none)
        ⟨1, [1], 1, [9], 5⟩ = .upToDate →
      (fun c => c) [9] = [9] ∧
      (⟨1, [1], 1, [9], 5⟩ : File) ∉ verifyFiles (fun c => c)
        (fun p => if p = [1] then some ⟨true, 420, true, [9]⟩ else none)
        [⟨1, [1], 1, [9], 5⟩]) ∧
     (true = true → ¬(true = true ∧ 420 = 292) → (fun c => c) [9] ≠ [9] →
      classify (fun c => c)
        (fun p => if p = [1] then some ⟨true, 420, true, [9]⟩ else none)
        ⟨1, [1], 1, [9], 5⟩ = .stale ∧
      (⟨1, [1], 1, [9], 5⟩ : File) ∈ verifyFiles (fun c => c)
        (fun p => if p = [1] then some ⟨true, 420, true, [9]⟩ else none)
        [⟨1, [1], 1, [9], 5⟩])) :=
  ⟨⟨by decide, by decide⟩,
    verify_uptodate_digest_eq (fun c => c)
      (fun p => if p = [1] then some ⟨true, 420, true, [9]⟩ else none)
      [⟨1, [1], 1, [9], 5⟩] ⟨1, [1], 1, [9], 5⟩ ⟨true, 420, true, [9]⟩
      (by decide) (by decide)⟩

/-- C4: an entry whose local file stats successfully with mode exactly 0444
is classified Protected and skipped: it is never read for hashing, never
queued, and neither a content write nor a modification-time write targets
its path during the run. -/
theorem verify_readonly_skipped (digest : List Nat → List Nat) (fs : FS)
    (files : List File) (f : File) (lf : LocalFile)
    (hfs : fs f.Path = some lf) (hstat : lf.statOk = true)
    (hmode : lf.mode = 292) :
    classify digest fs f = .prot ∧
    f ∉ verifyFiles digest fs files ∧
    f.Path ∉ runWriteTargets digest fs files ∧
    f.Path ∉ verifyHashed fs files := by
  have h1 : (lf.statOk && (lf.mode == 292)) = true := by simp [hstat, hmode]
  refine ⟨by simp [classify, hfs, h1], ?_, ?_, ?_⟩
  · rw [mem_verifyFiles]
    rintro ⟨_, hnd⟩
    simp [needsDownload, hfs, h1] at hnd
  · intro hw
    rcases List.mem_append.mp hw with hl | hr
    · obtain ⟨pr, hpr, hfst⟩ := List.mem_map.mp hl
      simp only [verifyWrites] at hpr
      obtain ⟨g, hg, hpr2⟩ := List.mem_map.mp hpr
      have hgp : g.Path = f.Path := by rw [← hfst, ← hpr2]
      have hgm := List.mem_filter.mp hg
      have hfsg : fs g.Path = some lf := by rw [hgp]; exact hfs
      have hcl : classify digest fs g = .prot := by simp [classify, hfsg, h1]
      rw [hcl] at hgm
      simp at hgm
    · obtain ⟨g, hg, hgp⟩ := List.mem_map.mp hr
      have hgm := (mem_verifyFiles digest fs files g).mp hg
      have hfsg : fs g.Path = some lf := by rw [hgp]; exact hfs
      have hnd : needsDownload digest fs g = false := by
        simp [needsDownload, hfsg, h1]
      exact absurd hgm.2 (by simp [hnd])
  · intro hh
    simp only [verifyHashed] at hh
    obtain ⟨g, hg, hgp⟩ := List.mem_map.mp hh
    have hgm := List.mem_filter.mp hg
    have hfsg : fs g.Path = some lf := by rw [hgp]; exact hfs
    simp [hfsg, h1] at hgm

theorem verify_readonly_skipped_witness :
    ((fun p => if p = [1] then some (⟨true, 292, true, [9]⟩ : LocalFile)
               else none : FS) [1] = some ⟨true, 292, true, [9]⟩ ∧
     (⟨true, 292, true, [9]⟩ : LocalFile).statOk = true ∧
     (⟨true, 292, true, [9]⟩ : LocalFile).mode = 292) ∧
    (classify (fun c => c)
       (fun p => if p = [1] then some ⟨true, 292, true, [9]⟩ else none)
       ⟨1, [1], 1, [7], 5⟩ = .prot ∧
     (⟨1, [1], 1, [7], 5⟩ : File) ∉ verifyFiles (fun c => c)
       (fun p => if p = [1] then some ⟨true, 292, true, [9]⟩ else none)
       [⟨1, [1], 1, [7], 5⟩] ∧
     ([1] : List Nat) ∉ runWriteTargets (fun c => c)
       (fun p => if p = [1] then some ⟨true, 292, true, [9]⟩ else none)
       [⟨1, [1], 1, [7], 5⟩] ∧
     ([1] : List Nat) ∉ verifyHashed
       (fun p => if p = [1] then some ⟨true, 292, true, [9]⟩ else none)
       [⟨1, [1], 1, [7], 5⟩]) :=
  ⟨⟨by decide, by decide, by decide⟩,
    verify_readonly_skipped (fun c => c)
      (fun p => if p = [1] then some ⟨true, 292, true, [9]⟩ else none)
      [⟨1, [1], 1, [7], 5⟩] ⟨1, [1], 1, [7], 5⟩ ⟨true, 292, true, [9]⟩
      (by decide) (by decide) (by decide)⟩

/-- C9: protection requires the mode to equal 0444 exactly; a readable file
with any other mode (0440, 0555, ...) is not Protected, its path is read for
hashing, and on digest mismatch it is classified Stale, queued, and its path
is a write target of the run. -/
theorem mode_0444_exact_only (digest : List Nat → List Nat) (fs : FS)
    (files : List File) (f : File) (lf : LocalFile)
    (hmem : f ∈ files) (hfs : fs f.Path = some lf) (hmode : lf.mode ≠ 292)
    (hread : lf.readOk = true) (hmis : digest lf.content ≠ f.Hash) :
    classify digest fs f ≠ .prot ∧
    f.Path ∈ verifyHashed fs files ∧
    classify digest fs f = .stale ∧
    f ∈ verifyFiles digest fs files ∧
    f.Path ∈ runWriteTargets digest fs files := by
  have h1 : (lf.statOk && (lf.mode == 292)) = false := by simp [hmode]
  have h3 : (digest lf.content == f.Hash) = false := by simpa using hmis
  have hq : f ∈ verifyFiles digest fs files := by
    rw [mem_verifyFiles]
    exact ⟨hmem, by simp [needsDownload, hfs, h1, hread, h3]⟩
  refine ⟨by simp [classify, hfs, h1, hread, h3], ?_,
    by simp [classify, hfs, h1, hread, h3], hq, ?_⟩
  · simp only [verifyHashed]
    apply List.mem_map.mpr
    refine ⟨f, List.mem_filter.mpr ⟨hmem, ?_⟩, rfl⟩
    simp [hfs, h1]
  · apply List.mem_append.mpr
    right
    exact List.mem_map.mpr ⟨f, hq, rfl⟩

theorem mode_0444_exact_only_witness :
    ((⟨1, [1], 1, [9], 5⟩ : File) ∈ [(⟨1, [1], 1, [9], 5⟩ : File)] ∧
     (fun p => if p = [1] then some (⟨true, 288, true, [7]⟩ : LocalFile)
               else none : FS) [1] = some ⟨true, 288, true, [7]⟩ ∧
     (⟨true, 288, true, [7]⟩ : LocalFile).mode ≠ 292 ∧
     (⟨true, 288, true, [7]⟩ : LocalFile).readOk = true ∧
     (fun c => c) [7] ≠ [9]) ∧
    (classify (fun c => c)
       (fun p => if p = [1] then some ⟨true, 288, true, [7]⟩ else none)
       ⟨1, [1], 1, [9], 5⟩ ≠ .prot ∧
     ([1] : List Nat) ∈ verifyHashed
       (fun p => if p = [1] then some ⟨true, 288, true, [7]⟩ else none)
       [⟨1, [1], 1, [9], 5⟩] ∧
     classify (fun c => c)
       (fun p => if p = [1] then some ⟨true, 288, true, [7]⟩ else none)
       ⟨1, [1], 1, [9], 5⟩ = .stale ∧
     (⟨1, [1], 1, [9], 5⟩ : File) ∈ verifyFiles (fun c => c)
       (fun p => if p = [1] then some ⟨true, 288, true, [7]⟩ else none)
       [⟨1, [1], 1, [9], 5⟩] ∧
     ([1] : List Nat) ∈ runWriteTargets (fun c => c)
       (fun p => if p = [1] then some ⟨true, 288, true, [7]⟩ else none)
       [⟨1, [1], 1, [9], 5⟩]) :=
  ⟨⟨by decide, by decide, by decide, by decide, by decide⟩,
    mode_0444_exact_only (fun c => c)
      (fun p => if p = [1] then some ⟨true, 288, true, [7]⟩ else none)
      [⟨1, [1], 1, [9], 5⟩] ⟨1, [1], 1, [9], 5⟩ ⟨true, 288, true, [7]⟩
      (by decide) (by decide) (by decide) (by decide) (by decide)⟩

/-- C10: any open error (the none case covers non-existence as well as
permission failures, patcher.go line 127) queues the entry, any read failure
on a non-protected opened file queues the entry, and verifyFiles is a total
function returning exactly the queued subset for every input. -/
theorem verify_open_error_queued_total (digest : List Nat → List Nat)
    (fs : FS) (files : List File) (f : File)
    (hmem : f ∈ files) (hopen : fs f.Path = none) :
    f ∈ verifyFiles digest fs files ∧
    classify digest fs f = .missing ∧
    (∀ g ∈ files, ∀ lf, fs g.Path = some lf → lf.readOk = false →
      (lf.statOk && (lf.mode == 292)) = false →
      g ∈ verifyFiles digest fs files) ∧
    verifyFiles digest fs files = files.filter (needsDownload digest fs) := by
  refine ⟨?_, classify_missing digest fs f hopen, ?_,
    verifyFiles_eq_filter digest fs files⟩
  · rw [mem_verifyFiles]
    exact ⟨hmem, by simp [needsDownload, hopen]⟩
  · intro g hg lf hglf hro hpr
    rw [mem_verifyFiles]
    exact ⟨hg, by simp [needsDownload, hglf, hro, hpr]⟩

theorem verify_open_error_queued_total_witness :
    ((⟨1, [1], 1, [9], 5⟩ : File) ∈ [(⟨1, [1], 1, [9], 5⟩ : File)] ∧
     (fun _ => none : FS) [1] = none) ∧
    ((⟨1, [1], 1, [9], 5⟩ : File) ∈ verifyFiles (fun c => c) (fun _ => none)
       [⟨1, [1], 1, [9], 5⟩] ∧
     classify (fun c => c) (fun _ => none) ⟨1, [1], 1, [9], 5⟩ = .missing ∧
     (∀ g ∈ [(⟨1, [1], 1, [9], 5⟩ : File)], ∀ lf : LocalFile,
       (fun _ => none : FS) g.Path = some lf → lf.readOk = false →
       (lf.statOk && (lf.mode == 292)) = false →
       g ∈ verifyFiles (fun c => c) (fun _ => none) [⟨1, [1], 1, [9], 5⟩]) ∧
     verifyFiles (fun c => c) (fun _ => none) [⟨1, [1], 1, [9], 5⟩] =
       [(⟨1, [1], 1, [9], 5⟩ : File)].filter
         (needsDownload (fun c => c) (fun _ => none))) :=
  ⟨⟨by decide, by decide⟩,
    verify_open_error_queued_total (fun c => c) (fun _ => none)
      [⟨1, [1], 1, [9], 5⟩] ⟨1, [1], 1, [9], 5⟩ (by decide) (by decide)⟩

/-- Local file produced by a successful download and install: os.Create makes
the destination with mode 0666 (438), readable, holding the decompressed
content the chosen endpoint serves for that path. -/
def installContent (serverContent : List Nat → List Nat) (p : List Nat) :
    LocalFile :=
  ⟨true, 438, true, serverContent p⟩

/-- Filesystem after one full reconciliation run in which every queued fetch
succeeds: each queued path now holds the downloaded content; all other paths
are untouched (the verifier only adjusts modification times, which do not
influence classification). -/
def runOnce (digest serverContent : List Nat → List Nat) (fs : FS)
    (files : List File) : FS :=
  fun p =>
    if p ∈ (verifyFiles digest fs files).map File.Path
    then some (installContent serverContent p) else fs p

/-- C7: running the reconciliation a second time after a fully successful
run queues nothing; every entry is then Protected or UpToDate.  Hypotheses:
manifest paths are unique (spec section 3 invariant) and each fetched
content decompresses to bytes whose digest is the manifest hash (no network
failures and a correct endpoint). -/
theorem reconcile_idempotent (digest serverContent : List Nat → List Nat)
    (fs : FS) (files : List File)
    (hnd : (files.map File.Path).Nodup)
    (hsrv : ∀ f ∈ verifyFiles digest fs files,
      digest (serverContent f.Path) = f.Hash) :
    verifyFiles digest (runOnce digest serverContent fs files) files = [] ∧
    ∀ f ∈ files,
      classify digest (runOnce digest serverContent fs files) f = .prot ∨
      classify digest (runOnce digest serverContent fs files) f = .upToDate := by
  have key : ∀ f ∈ files,
      needsDownload digest (runOnce digest serverContent fs files) f = false := by
    intro f hf
    by_cases hq : needsDownload digest fs f = true
    · have hfmem : f ∈ verifyFiles digest fs files :=
        (mem_verifyFiles digest fs files f).mpr ⟨hf, hq⟩
      have hp : f.Path ∈ (verifyFiles digest fs files).map File.Path :=
        List.mem_map.mpr ⟨f, hfmem, rfl⟩
      have hfs2 : runOnce digest serverContent fs files f.Path =
          some (installContent serverContent f.Path) := by
        simp [runOnce, hp]
      have hdig : digest (serverContent f.Path) = f.Hash := hsrv f hfmem
      simp [needsDownload, hfs2, installContent, hdig]
    · have hnot : f.Path ∉ (verifyFiles digest fs files).map File.Path := by
        intro hmem2
        obtain ⟨g, hg, hgp⟩ := List.mem_map.mp hmem2
        have hgm := (mem_verifyFiles digest fs files g).mp hg
        have hgf : g = f := List.inj_on_of_nodup_map hnd hgm.1 hf hgp
        rw [hgf] at hgm
        exact hq hgm.2
      have heq : runOnce digest serverContent fs files f.Path = fs f.Path := by
        simp [runOnce, hnot]
      rw [needsDownload_congr digest _ fs f heq]
      simpa using hq
  constructor
  · rw [verifyFiles_eq_filter]
    exact filter_nil_of_false _ files key
  · intro f hf
    exact (needsDownload_eq_false_iff digest _ f).mp (key f hf)

theorem reconcile_idempotent_witness :
    (([(⟨1, [7], 1, [5], 0⟩ : File)].map File.Path).Nodup ∧
     (∀ f ∈ verifyFiles (fun c => c) (fun _ => none)
         [(⟨1, [7], 1, [5], 0⟩ : File)],
       (fun c => c) ((fun _ => [5] : List Nat → List Nat) f.Path) = f.Hash)) ∧
    (verifyFiles (fun c => c)
       (runOnce (fun c => c) (fun _ => [5]) (fun _ => none)
         [⟨1, [7], 1, [5], 0⟩]) [⟨1, [7], 1, [5], 0⟩] = [] ∧
     ∀ f ∈ [(⟨1, [7], 1, [5], 0⟩ : File)],
       classify (fun c => c)
         (runOnce (fun c => c) (fun _ => [5]) (fun _ => none)
           [⟨1, [7], 1, [5], 0⟩]) f = .prot ∨
       classify (fun c => c)
         (runOnce (fun c => c) (fun _ => [5]) (fun _ => none)
           [⟨1, [7], 1, [5], 0⟩]) f = .upToDate) :=
  ⟨⟨by decide, by decide⟩,
    reconcile_idempotent (fun c => c) (fun _ => [5]) (fun _ => none)
      [⟨1, [7], 1, [5], 0⟩] (by decide) (by decide)⟩

/-- State of the per-file retry loop in worker (patcher.go lines 184-199):
the force flag, the ordered log of force flags passed to downloadFile, and
the terminal outcome once the loop breaks (none while still looping). -/
structure WorkerState where
  force : Bool
  calls : List Bool
  result : Option Bool
deriving DecidableEq, Repr

/-- Loop entry state: force starts at DefaultForceDownload (line 183). -/
def workerInit : WorkerState := ⟨DefaultForceDownload, [], none⟩

/-- One iteration of the retry loop, with the per-attempt outcome of
downloadFile abstracted as a function of the force flag: on success break
with success; on failure break with failure if already forced, otherwise set
force and continue. -/
def workerStep (attempt : Bool → Bool) (s : WorkerState) : WorkerState :=
  match s.result with
  | some _ => s
  | none =>
    if attempt s.force then ⟨s.force, s.calls ++ [s.force], some true⟩
    else if s.force then ⟨s.force, s.calls ++ [s.force], some false⟩
    else ⟨true, s.calls ++ [s.force], none⟩

theorem workerStep_done (attempt : Bool → Bool) (s : WorkerState) (r : Bool)
    (h : s.result = some r) : workerStep attempt s = s := by
  simp [workerStep, h]

/-- C2: when every attempt fails, the loop calls downloadFile exactly twice,
first non-forced then forced, and terminates in the failure state; further
iteration never changes the state (no third attempt), and for every possible
attempt oracle the loop is terminal after two iterations. -/
theorem worker_retry_bound (attempt : Bool → Bool)
    (hfail : ∀ b, attempt b = false) :
    ((workerStep attempt)^[2] workerInit).result = some false ∧
    ((workerStep attempt)^[2] workerInit).calls = [false, true] ∧
    (∀ n : Nat, (workerStep attempt)^[2 + n] workerInit =
      (workerStep attempt)^[2] workerInit) ∧
    (∀ g : Bool → Bool, ((workerStep g)^[2] workerInit).result.isSome = true) := by
  have e1 : workerStep attempt workerInit = ⟨true, [false], none⟩ := by
    simp [workerStep, workerInit, DefaultForceDownload, hfail false]
  have e2 : workerStep attempt ⟨true, [false], none⟩ =
      ⟨true, [false, true], some false⟩ := by
    simp [workerStep, hfail true]
  have h2 : (workerStep attempt)^[2] workerInit =
      ⟨true, [false, true], some false⟩ := by
    have hit : (workerStep attempt)^[2] workerInit =
        workerStep attempt (workerStep attempt workerInit) := rfl
    rw [hit, e1, e2]
  refine ⟨by rw [h2], by rw [h2], ?_, ?_⟩
  · intro n
    rw [Nat.add_comm, Function.iterate_add_apply, h2]
    induction n with
    | zero => rfl
    | succ k ih =>
      rw [Function.iterate_succ_apply', ih,
        workerStep_done attempt _ false rfl]
  · intro g
    have hit : (workerStep g)^[2] workerInit =
        workerStep g (workerStep g workerInit) := rfl
    rw [hit]
    cases hg0 : g false with
    | true => simp [workerStep, workerInit, DefaultForceDownload, hg0]
    | false =>
      cases hg1 : g true with
      | true => simp [workerStep, workerInit, DefaultForceDownload, hg0, hg1]
      | false => simp [workerStep, workerInit, DefaultForceDownload, hg0, hg1]

theorem worker_retry_bound_witness :
    (∀ b : Bool, (fun _ : Bool => false) b = false) ∧
    (((workerStep (fun _ => false))^[2] workerInit).result = some false ∧
     ((workerStep (fun _ => false))^[2] workerInit).calls = [false, true] ∧
     (∀ n : Nat, (workerStep (fun _ => false))^[2 + n] workerInit =
       (workerStep (fun _ => false))^[2] workerInit) ∧
     (∀ g : Bool → Bool, ((workerStep g)^[2] workerInit).result.isSome = true)) :=
  ⟨fun _ => rfl, worker_retry_bound (fun _ => false) (fun _ => rfl)⟩

/-- How the partial-transfer file is opened (patcher.go lines 228 and 233):
append-and-create on resume, truncate-and-create otherwise. -/
inductive TmpOpen where
  | appendMode
  | truncMode
deriving DecidableEq, Repr

/-- On-disk state relevant to one downloadFile call: the content of the
partial file (filename plus the tmp suffix; none when absent) and of the
final destination. -/
structure Disk where
  tmp : Option (List Nat)
  dest : Option (List Nat)
deriving DecidableEq, Repr

/-- Outcome of one downloadFile call: resulting disk state, whether the call
returned without error, the byte offset of the Range header (none when no
Range header was sent, that is a full request from byte 0), how the partial
file was opened, and its content after the transfer copy (none if the
request failed before the copy). -/
structure DLOutcome where
  disk : Disk
  ok : Bool
  rangeStart : Option Nat
  tmpOpen : TmpOpen
  tmpAfterCopy : Option (List Nat)
deriving DecidableEq, Repr

/-- downloadFile (patcher.go lines 203-295).  The network is an oracle from
the optional Range offset to an optional response body; decompression is an
oracle returning either the fully decompressed bytes or the prefix written
to the destination before the failure.  Mirrored steps, in source order:
stat the partial file; on a non-forced call with the stat succeeding, send a
Range request from its size and open it for append, otherwise send a plain
request and truncate-create it; stream the body into it; create (truncate)
the final destination; reopen the partial file; decompress into the
destination; on full success remove the partial file. -/
def downloadFile (force : Bool) (response : Option Nat → Option (List Nat))
    (decompress : List Nat → Except (List Nat) (List Nat)) (reopenOk : Bool)
    (disk : Disk) : DLOutcome :=
  let resume := !force && disk.tmp.isSome
  let tmp0 : List Nat := if resume then disk.tmp.getD [] else []
  let range : Option Nat := if resume then some tmp0.length else none
  let mode : TmpOpen := if resume then .appendMode else .truncMode
  match response range with
  | none => ⟨⟨some tmp0, disk.dest⟩, false, range, mode, none⟩
  | some body =>
    let tmp1 := tmp0 ++ body
    if !reopenOk then ⟨⟨some tmp1, some []⟩, false, range, mode, some tmp1⟩
    else
      match decompress tmp1 with
      | .error p => ⟨⟨some tmp1, some p⟩, false, range, mode, some tmp1⟩
      | .ok full => ⟨⟨none, some full⟩, true, range, mode, some tmp1⟩

/-- C6: a non-forced call with an existing partial file resumes from its
size — Range header at that offset, append open, response appended to the
existing bytes; a forced call, or one with no partial file, sends no Range
header (full request from byte 0) and truncate-creates the partial file, so
after the copy the partial file holds exactly the response body. -/
theorem download_resume_plan (response : Option Nat → Option (List Nat))
    (decompress : List Nat → Except (List Nat) (List Nat)) (reopenOk : Bool)
    (disk d2 : Disk) (t body : List Nat)
    (htmp : disk.tmp = some t)
    (hresp : response (some t.length) = some body)
    (hfull : response none = some body) :
    ((downloadFile false response decompress reopenOk disk).rangeStart =
        some t.length ∧
     (downloadFile false response decompress reopenOk disk).tmpOpen =
        .appendMode ∧
     (downloadFile false response decompress reopenOk disk).tmpAfterCopy =
        some (t ++ body)) ∧
    (∀ force : Bool, force = true ∨ d2.tmp = none →
      (downloadFile force response decompress reopenOk d2).rangeStart = none ∧
      (downloadFile force response decompress reopenOk d2).tmpOpen =
        .truncMode) ∧
    (downloadFile true response decompress reopenOk disk).tmpAfterCopy =
      some body := by
  refine ⟨?_, ?_, ?_⟩
  · cases reopenOk with
    | false => simp [downloadFile, htmp, hresp]
    | true =>
      cases hdec : decompress (t ++ body) with
      | error p => simp [downloadFile, htmp, hresp, hdec]
      | ok full => simp [downloadFile, htmp, hresp, hdec]
  · intro force hfo
    rcases hfo with rfl | hnone
    · cases hr : response none with
      | none => simp [downloadFile, hr]
      | some b2 =>
        cases reopenOk with
        | false => simp [downloadFile, hr]
        | true =>
          cases hdec : decompress b2 with
          | error p => simp [downloadFile, hr, hdec]
          | ok full => simp [downloadFile, hr, hdec]
    · cases hr : response none with
      | none => simp [downloadFile, hnone, hr]
      | some b2 =>
        cases reopenOk with
        | false => simp [downloadFile, hnone, hr]
        | true =>
          cases hdec : decompress b2 with
          | error p => simp [downloadFile, hnone, hr, hdec]
          | ok full => simp [downloadFile, hnone, hr, hdec]
  · cases reopenOk with
    | false => simp [downloadFile, hfull]
    | true =>
      cases hdec : decompress body with
      | error p => simp [downloadFile, hfull, hdec]
      | ok full => simp [downloadFile, hfull, hdec]

theorem download_resume_plan_witness :
    ((⟨some [1], some [2]⟩ : Disk).tmp = some [1] ∧
     (fun _ => some [9] : Option Nat → Option (List Nat))
       (some ([1] : List Nat).length) = some [9] ∧
     (fun _ => some [9] : Option Nat → Option (List Nat)) none = some [9]) ∧
    (((downloadFile false (fun _ => some [9]) (fun c => .ok c) true
        ⟨some [1], some [2]⟩).rangeStart = some ([1] : List Nat).length ∧
      (downloadFile false (fun _ => some [9]) (fun c => .ok c) true
        ⟨some [1], some [2]⟩).tmpOpen = .appendMode ∧
      (downloadFile false (fun _ => some [9]) (fun c => .ok c) true
        ⟨some [1], some [2]⟩).tmpAfterCopy = some ([1] ++ [9])) ∧
     (∀ force : Bool, force = true ∨ (⟨none, none⟩ : Disk).tmp = none →
       (downloadFile force (fun _ => some [9]) (fun c => .ok c) true
         ⟨none, none⟩).rangeStart = none ∧
       (downloadFile force (fun _ => some [9]) (fun c => .ok c) true
         ⟨none, none⟩).tmpOpen = .truncMode) ∧
     (downloadFile true (fun _ => some [9]) (fun c => .ok c) true
       ⟨some [1], some [2]⟩).tmpAfterCopy = some [9]) :=
  ⟨⟨rfl, rfl, rfl⟩,
    download_resume_plan (fun _ => some [9]) (fun c => .ok c) true
      ⟨some [1], some [2]⟩ ⟨none, none⟩ [1] [9] rfl rfl rfl⟩

/-- C8: downloadFile truncates the final destination before decompression
has succeeded, so when reopening the partial file fails the destination has
been emptied, and when decompression fails the destination holds only the
partial decompressed prefix — in both error cases a nonempty previously
installed content is destroyed rather than left unchanged. -/
theorem dest_truncated_on_failure (response : Option Nat → Option (List Nat))
    (decompress : List Nat → Except (List Nat) (List Nat)) (disk : Disk)
    (c0 t body p : List Nat)
    (hdest : disk.dest = some c0) (htmp : disk.tmp = some t)
    (hresp : response (some t.length) = some body) (hne : c0 ≠ []) :
    ((downloadFile false response decompress false disk).ok = false ∧
     (downloadFile false response decompress false disk).disk.dest =
       some [] ∧
     (downloadFile false response decompress false disk).disk.dest ≠
       disk.dest) ∧
    (decompress (t ++ body) = .error p →
      (downloadFile false response decompress true disk).ok = false ∧
      (downloadFile false response decompress true disk).disk.dest = some p ∧
      (p ≠ c0 →
        (downloadFile false response decompress true disk).disk.dest ≠
          disk.dest)) := by
  have hA : downloadFile false response decompress false disk =
      ⟨⟨some (t ++ body), some []⟩, false, some t.length, .appendMode,
        some (t ++ body)⟩ := by
    simp [downloadFile, htmp, hresp]
  constructor
  · rw [hA, hdest]
    refine ⟨rfl, rfl, ?_⟩
    intro h
    exact hne (by simpa using h.symm)
  · intro hdec
    have hB : downloadFile false response decompress true disk =
        ⟨⟨some (t ++ body), some p⟩, false, some t.length, .appendMode,
          some (t ++ body)⟩ := by
      simp [downloadFile, htmp, hresp, hdec]
    rw [hB, hdest]
    refine ⟨rfl, rfl, ?_⟩
    intro hpc h
    exact hpc (by simpa using h)

theorem dest_truncated_on_failure_witness :
    ((⟨some [1], some [2]⟩ : Disk).dest = some [2] ∧
     (⟨some [1], some [2]⟩ : Disk).tmp = some [1] ∧
     (fun _ => some [9] : Option Nat → Option (List Nat))
       (some ([1] : List Nat).length) = some [9] ∧
     ([2] : List Nat) ≠ []) ∧
    (((downloadFile false (fun _ => some [9]) (fun _ => .error [4]) false
        ⟨some [1], some [2]⟩).ok = false ∧
      (downloadFile false (fun _ => some [9]) (fun _ => .error [4]) false
        ⟨some [1], some [2]⟩).disk.dest = some [] ∧
      (downloadFile false (fun _ => some [9]) (fun _ => .error [4]) false
        ⟨some [1], some [2]⟩).disk.dest ≠
        (⟨some [1], some [2]⟩ : Disk).dest) ∧
     ((fun _ => .error [4] : List Nat → Except (List Nat) (List Nat))
        ([1] ++ [9]) = .error [4] →
      (downloadFile false (fun _ => some [9]) (fun _ => .error [4]) true
        ⟨some [1], some [2]⟩).ok = false ∧
      (downloadFile false (fun _ => some [9]) (fun _ => .error [4]) true
        ⟨some [1], some [2]⟩).disk.dest = some [4] ∧
      (([4] : List Nat) ≠ [2] →
        (downloadFile false (fun _ => some [9]) (fun _ => .error [4]) true
          ⟨some [1], some [2]⟩).disk.dest ≠
          (⟨some [1], some [2]⟩ : Disk).dest))) :=
  ⟨⟨rfl, rfl, rfl, by decide⟩,
    dest_truncated_on_failure (fun _ => some [9]) (fun _ => .error [4])
      ⟨some [1], some [2]⟩ [2] [1] [9] [4] rfl rfl rfl (by decide)⟩

end BSW
